import Mathlib

/-!
Shallow embedding of the AppAgent news-aggregation pipeline
(`news_digest.py`, `news_manager.py`, `news_crawler.py`,
`xueqiu_comment_analyzer.py`, `xueqiu_simple_analyzer.py`)
with verification of the specification's claims about it.

Python strings are modelled as Lean `String` / `List Char`; Python's
substring test `needle in hay` is `substrB`; `str.lower()` is a
per-character lowering (`lowerL`); dictionary access `d[k]` on a possibly
missing key is modelled with `Except` (a raised `KeyError` is
`Except.error`), and `d.get(k, default)` with `Option.getD`.
-/

/-- Python `needle in hay` substring containment on character lists. -/
def substrB (needle : List Char) : List Char → Bool
  | [] => needle.isEmpty
  | c :: t => needle.isPrefixOf (c :: t) || substrB needle t

/-- Python `str.lower()`, modelled per character. -/
def lowerL (l : List Char) : List Char := l.map Char.toLower

/-- The lower-cased haystack `(title + ' ' + summary).lower()` used by the
classifier and the scorer. -/
def lowerText (title summary : String) : List Char :=
  lowerL (title.data ++ [' '] ++ summary.data)

/-- `NewsCategory` enumeration from `news_digest.py`, in declaration order. -/
inductive NewsCategory where
  | POLITICS
  | ECONOMY
  | SOCIETY
  | TECHNOLOGY
  | CULTURE
  | SPORTS
  | INTERNATIONAL
  | HEALTH
  | EDUCATION
  | ENVIRONMENT
  deriving DecidableEq, Repr

/-- The `.value` label of each `NewsCategory` member. -/
def NewsCategory.value : NewsCategory → String
  | .POLITICS => "政治"
  | .ECONOMY => "经济"
  | .SOCIETY => "社会"
  | .TECHNOLOGY => "科技"
  | .CULTURE => "文化"
  | .SPORTS => "体育"
  | .INTERNATIONAL => "国际"
  | .HEALTH => "健康"
  | .EDUCATION => "教育"
  | .ENVIRONMENT => "环境"

/-- Iteration order `for category in NewsCategory` (declaration order). -/
def NewsCategory.all : List NewsCategory :=
  [.POLITICS, .ECONOMY, .SOCIETY, .TECHNOLOGY, .CULTURE, .SPORTS,
   .INTERNATIONAL, .HEALTH, .EDUCATION, .ENVIRONMENT]

/-- `NewsItem` dataclass from `news_digest.py`. -/
structure NewsItem where
  title : String
  summary : String
  category : NewsCategory
  source : String
  url : String := ""
  publish_time : String := ""
  importance : Nat := 1
  deriving DecidableEq, Repr

namespace NewsDigest

/-- `NewsDigest.add_news`: the digest state is its `news_items` list; the
method builds a `NewsItem` from the arguments and appends it. -/
def add_news (news_items : List NewsItem) (title summary : String)
    (category : NewsCategory) (source : String)
    (url : String := "") (publish_time : String := "")
    (importance : Nat := 1) : List NewsItem :=
  news_items ++ [{ title := title, summary := summary, category := category,
                   source := source, url := url, publish_time := publish_time,
                   importance := importance }]

/-- `NewsDigest.get_news_by_category`. -/
def get_news_by_category (news_items : List NewsItem)
    (category : NewsCategory) : List NewsItem :=
  news_items.filter (fun item => item.category = category)

/-- The comparison used by `sorted(self.news_items, key=lambda x: x.importance,
reverse=True)`: descending by importance. -/
def impGe (a b : NewsItem) : Prop := b.importance ≤ a.importance

instance : DecidableRel impGe := fun a b => Nat.decLe b.importance a.importance

instance : IsTotal NewsItem impGe :=
  ⟨fun a b => Nat.le_total b.importance a.importance⟩

instance : IsTrans NewsItem impGe :=
  ⟨fun _ _ _ h1 h2 => Nat.le_trans h2 h1⟩

/-- `NewsDigest.get_top_news`: Python's `sorted` is a stable sort; with
`key=importance, reverse=True` it is a stable sort descending by importance
(modelled by insertion sort with `impGe`), truncated to `limit`. -/
def get_top_news (news_items : List NewsItem) (limit : Nat := 5) :
    List NewsItem :=
  (List.insertionSort impGe news_items).take limit

/-- Python `s * n` string repetition. -/
def strRepeat (s : String) (n : Nat) : String :=
  String.join (List.replicate n s)

/-- One enumerated entry of `generate_digest`:
`f"{i}. {title}\n   {summary}\n   来源：{source}\n\n"`. -/
def formatEntry (i : Nat) (news : NewsItem) : String :=
  toString i ++ ". " ++ news.title ++ "\n   " ++ news.summary ++
    "\n   来源：" ++ news.source ++ "\n\n"

/-- The loop `for i, news in enumerate(section_news, 1): ...` -/
def formatEntries (i : Nat) : List NewsItem → String
  | [] => ""
  | news :: rest => formatEntry i news ++ formatEntries (i + 1) rest

/-- A per-category section of `generate_digest` (emitted only when the
category has items). -/
def categorySection (news_items : List NewsItem) (category : NewsCategory) :
    String :=
  let category_news := get_news_by_category news_items category
  if category_news = [] then ""
  else
    "📋 " ++ category.value ++ "\n" ++ strRepeat "-" 20 ++ "\n" ++
      formatEntries 1 category_news

/-- `NewsDigest.generate_digest`.  `today` models `self.today` and
`gen_time` models `datetime.datetime.now().strftime(...)` at render time. -/
def generate_digest (today gen_time : String) (news_items : List NewsItem) :
    String :=
  if news_items = [] then "今日暂无新闻"
  else
    let header := "📰 中国今日新闻早报 - " ++ today ++ "\n" ++
      strRepeat "=" 50 ++ "\n\n"
    let top_news := get_top_news news_items 3
    let topSection :=
      if top_news = [] then ""
      else "🔥 头条新闻\n" ++ strRepeat "-" 20 ++ "\n" ++
        formatEntries 1 top_news
    let catSections :=
      String.join (NewsCategory.all.map (categorySection news_items))
    header ++ topSection ++ catSections ++ strRepeat "=" 50 ++ "\n" ++
      "📊 今日共收集 " ++ toString news_items.length ++ " 条新闻\n" ++
      "⏰ 生成时间：" ++ gen_time

end NewsDigest

/-- One entry of the `categories` configuration section: a category label
mapped to its trigger-keyword list (dict insertion order preserved). -/
structure CategoryRule where
  name : String
  keywords : List String
  deriving Repr

/-- The configuration fields read by the modelled `NewsManager` methods.
Each field's default value is the fallback the code passes to `dict.get`
for that entry, so an absent config section is the structure's default. -/
structure NewsConfig where
  auto_categorize : Bool := true
  auto_importance : Bool := true
  categories : List CategoryRule := []
  critical_keywords : List String := []
  authoritative_sources : List String := []
  important_keywords : List String := []
  title_length_threshold : Nat := 20
  title_blacklist : List String := []
  source_blacklist : List String := []
  min_title_length : Nat := 5
  max_title_length : Nat := 100
  min_summary_length : Nat := 10
  max_summary_length : Nat := 500
  deriving Repr

/-- A YAML document: either one `yaml.safe_load` rejects with a parse
error, or a well-formed one carrying the parsed value. -/
inductive YamlDoc (α : Type) where
  | invalid
  | valid (val : α)

/-- The state of the configuration file on disk. -/
inductive FileState (α : Type) where
  | absent
  | present (doc : YamlDoc α)

/-- `open(path)`: raises `FileNotFoundError` when the file is absent. -/
def openRead : FileState α → Except String (YamlDoc α)
  | .absent => .error "FileNotFoundError"
  | .present doc => .ok doc

/-- `yaml.safe_load`: raises a YAML error on a malformed document. -/
def safe_load : YamlDoc α → Except String α
  | .invalid => .error "YAMLError"
  | .valid c => .ok c

/-- `try: open; return yaml.safe_load(f) except FileNotFoundError: default`
— only `FileNotFoundError` is caught; any other exception propagates. -/
def loadYamlCaught (dflt : α) (fs : FileState α) : Except String α :=
  match openRead fs >>= safe_load with
  | .ok c => .ok c
  | .error e => if e = "FileNotFoundError" then .ok dflt else .error e

/-- A raw item record (a Python dict): each field may be missing. -/
structure RawNews where
  title : Option String := none
  summary : Option String := none
  source : Option String := none

/-- `any(keyword in news[key] for keyword in blacklist)`: the generator is
lazy, so the key is only looked up when the blacklist is non-empty, and a
missing key then raises `KeyError`. -/
def blacklistAny (blacklist : List String) (field : Option String)
    (key : String) : Except String Bool :=
  match blacklist with
  | [] => .ok false
  | _ =>
    match field with
    | none => .error ("KeyError: " ++ key)
    | some v => .ok (blacklist.any (fun kw => substrB kw.data v.data))

/-- `news[key]` dict access: raises `KeyError` when the key is missing. -/
def getItem (field : Option String) (key : String) : Except String String :=
  match field with
  | none => .error ("KeyError: " ++ key)
  | some v => .ok v

namespace NewsManager

/-- `NewsManager.get_default_config`: sets `system.auto_categorize` and
`system.auto_importance` to `True` and leaves every other modelled section
absent, i.e. at its `dict.get` fallback. -/
def get_default_config : NewsConfig := {}

/-- `NewsManager.load_config`. -/
def load_config (fs : FileState NewsConfig) : Except String NewsConfig :=
  loadYamlCaught get_default_config fs

/-- `NewsManager.filter_news`, with exception propagation written out:
each check either raises (`.error`), rejects (`.ok false`) or falls
through to the next check; a run through all four checks accepts. -/
def filter_news (config : NewsConfig) (news : RawNews) :
    Except String Bool :=
  match blacklistAny config.title_blacklist news.title "title" with
  | .error e => .error e
  | .ok tbMatch =>
    if tbMatch then .ok false
    else
      let sbMatch := config.source_blacklist.any
        (fun kw => substrB kw.data (news.source.getD "").data)
      if sbMatch then .ok false
      else
        match getItem news.title "title" with
        | .error e => .error e
        | .ok title =>
          if ¬ (config.min_title_length ≤ title.length ∧
              title.length ≤ config.max_title_length) then .ok false
          else
            match getItem news.summary "summary" with
            | .error e => .error e
            | .ok summary =>
              if ¬ (config.min_summary_length ≤ summary.length ∧
                  summary.length ≤ config.max_summary_length) then .ok false
              else .ok true

/-- The loop body of `NewsManager.auto_categorize`: for each configured
category in order, on a keyword hit the Chinese label is looked up among
the enumeration's members; a hit whose label is no member's `.value` falls
through to the next configured category. -/
def categorizeGo (text : List Char) : List CategoryRule → NewsCategory
  | [] => .SOCIETY
  | r :: rest =>
    if r.keywords.any (fun kw => substrB kw.data text) then
      match NewsCategory.all.find? (fun c => c.value = r.name) with
      | some c => c
      | none => categorizeGo text rest
    else categorizeGo text rest

/-- `NewsManager.auto_categorize`. -/
def auto_categorize (config : NewsConfig) (title summary : String) :
    NewsCategory :=
  if ¬ config.auto_categorize then .SOCIETY
  else categorizeGo (lowerText title summary) config.categories

/-- `NewsManager.determine_importance`.  Tier 2 is
`any(source in auth_source for auth_source in authoritative_sources)`:
it tests whether the item's source is a SUBSTRING of an authoritative
name, not membership in the list. -/
def determine_importance (config : NewsConfig)
    (title summary source : String) : Nat :=
  if ¬ config.auto_importance then 3
  else
    let text := lowerText title summary
    if config.critical_keywords.any (fun kw => substrB kw.data text) then 5
    else if config.authoritative_sources.any
        (fun auth_source => substrB source.data auth_source.data) then 4
    else if config.important_keywords.any
        (fun kw => substrB kw.data text) then 3
    else if title.length > config.title_length_threshold then 3
    else 2

end NewsManager

namespace NewsAggregator

/-- Hard-coded keyword lists of `NewsAggregator.categorize_news`
(`news_crawler.py`), in evaluation order. -/
def politics_keywords : List String :=
  ["国务院", "政治局", "中央", "政府", "政策", "法规", "会议", "领导人",
   "习近平", "李克强"]

def economy_keywords : List String :=
  ["经济", "金融", "股市", "银行", "央行", "GDP", "投资", "贸易", "出口",
   "进口", "企业"]

def tech_keywords : List String :=
  ["科技", "技术", "互联网", "AI", "人工智能", "5G", "芯片", "创新", "数字化"]

def education_keywords : List String :=
  ["教育", "学校", "学生", "教师", "考试", "招生", "大学", "培训"]

def sports_keywords : List String :=
  ["体育", "足球", "篮球", "奥运会", "比赛", "运动员", "冠军", "赛事"]

def health_keywords : List String :=
  ["健康", "医疗", "医院", "疾病", "疫苗", "药品", "治疗", "医生"]

def environment_keywords : List String :=
  ["环境", "环保", "污染", "气候", "生态", "绿色", "可持续发展"]

def culture_keywords : List String :=
  ["文化", "艺术", "电影", "音乐", "文学", "历史", "传统", "博物馆"]

def international_keywords : List String :=
  ["国际", "外交", "美国", "日本", "欧洲", "联合国", "全球", "世界"]

/-- `NewsAggregator.categorize_news`: a fixed if-chain over the lower-cased
concatenation of title and summary; the keyword lists themselves are NOT
lower-cased. -/
def categorize_news (title summary : String) : NewsCategory :=
  let text := lowerText title summary
  if politics_keywords.any (fun kw => substrB kw.data text) then .POLITICS
  else if economy_keywords.any (fun kw => substrB kw.data text) then .ECONOMY
  else if tech_keywords.any (fun kw => substrB kw.data text) then .TECHNOLOGY
  else if education_keywords.any (fun kw => substrB kw.data text) then
    .EDUCATION
  else if sports_keywords.any (fun kw => substrB kw.data text) then .SPORTS
  else if health_keywords.any (fun kw => substrB kw.data text) then .HEALTH
  else if environment_keywords.any (fun kw => substrB kw.data text) then
    .ENVIRONMENT
  else if culture_keywords.any (fun kw => substrB kw.data text) then .CULTURE
  else if international_keywords.any (fun kw => substrB kw.data text) then
    .INTERNATIONAL
  else .SOCIETY

def crawler_important_keywords : List String :=
  ["紧急", "重大", "重要", "突发", "首次", "突破", "创新", "政策", "法规"]

def crawler_authoritative_sources : List String :=
  ["新华社", "人民日报", "央视", "中央", "国务院"]

/-- `NewsAggregator.determine_importance`.  Its tier-2 test is
`any(source in authoritative_sources for source in authoritative_sources)`:
the generator variable shadows the `source` parameter, so the test asks
whether some element of the list is a member of the same list — true for
every input because the list is non-empty. -/
def determine_importance (title summary source : String) : Nat :=
  let text := lowerText title summary
  if crawler_important_keywords.any (fun kw => substrB kw.data text) then 5
  else if crawler_authoritative_sources.any
      (fun src => crawler_authoritative_sources.contains src) then 4
  else if title.length > 20 || substrB "发布".data text ||
      substrB "公布".data text then 3
  else 2

end NewsAggregator

/-- A generic first-match classifier over an ordered rule list: returns the
category of the first rule one of whose keywords occurs in `text`,
defaulting to `SOCIETY`. -/
def firstMatchCat : List (NewsCategory × List String) → List Char →
    NewsCategory
  | [], _ => .SOCIETY
  | (c, kws) :: rest, text =>
    if kws.any (fun kw => substrB kw.data text) then c
    else firstMatchCat rest text

/-- The crawler's if-chain as an ordered rule list. -/
def crawlerRules : List (NewsCategory × List String) :=
  [(.POLITICS, NewsAggregator.politics_keywords),
   (.ECONOMY, NewsAggregator.economy_keywords),
   (.TECHNOLOGY, NewsAggregator.tech_keywords),
   (.EDUCATION, NewsAggregator.education_keywords),
   (.SPORTS, NewsAggregator.sports_keywords),
   (.HEALTH, NewsAggregator.health_keywords),
   (.ENVIRONMENT, NewsAggregator.environment_keywords),
   (.CULTURE, NewsAggregator.culture_keywords),
   (.INTERNATIONAL, NewsAggregator.international_keywords)]

namespace XueqiuSimpleAnalyzer

def positive_words : List String :=
  ["涨", "好", "看好", "买入", "持有", "乐观", "机会", "利好", "突破", "强势"]

def negative_words : List String :=
  ["跌", "不好", "看空", "卖出", "悲观", "风险", "利空", "破位", "弱势", "割肉"]

/-- `XueqiuSimpleAnalyzer.analyze_sentiment`:
`sum(1 for word in words if word in text_lower)` counts the number of
DISTINCT configured keywords present in the lower-cased text (each at most
once, regardless of how often it occurs). -/
def analyze_sentiment (text : String) : String :=
  let text_lower := lowerL text.data
  let positive_count :=
    positive_words.countP (fun word => substrB word.data text_lower)
  let negative_count :=
    negative_words.countP (fun word => substrB word.data text_lower)
  if positive_count > negative_count then "乐观"
  else if negative_count > positive_count then "悲观"
  else "中性"

/-- `XueqiuSimpleAnalyzer._load_config`: same `try/except FileNotFoundError`
shape as `NewsManager.load_config`, with its own default dict. -/
structure XueqiuConfig where
  max_comments : Nat := 1000
  timeout : Nat := 30
  retry_times : Nat := 3
  analysis_days : Nat := 7
  max_topics : Nat := 10
  max_comments_per_topic : Nat := 50
  deriving Repr

def default_config : XueqiuConfig := {}

def load_config (fs : FileState XueqiuConfig) : Except String XueqiuConfig :=
  loadYamlCaught default_config fs

end XueqiuSimpleAnalyzer

namespace XueqiuCommentAnalyzer

/-- The default dict of `XueqiuCommentAnalyzer._load_config`
(`xueqiu_comment_analyzer.py`). -/
structure XueqiuCommentConfig where
  api_key : String := ""
  max_comments : Nat := 1000
  timeout : Nat := 30
  retry_times : Nat := 3
  deriving Repr

def default_config : XueqiuCommentConfig := {}

/-- `XueqiuCommentAnalyzer._load_config`: the same
`try/except FileNotFoundError` shape as `NewsManager.load_config`. -/
def load_config (fs : FileState XueqiuCommentConfig) :
    Except String XueqiuCommentConfig :=
  loadYamlCaught default_config fs

end XueqiuCommentAnalyzer

/-! ### The text normalizer `clean_text`
(identical in `xueqiu_comment_analyzer.py` and `xueqiu_simple_analyzer.py`)

`re.sub(pattern, '', text)` is modelled as a left-to-right scan that, at
each position, removes the leftmost (greedy) match or else keeps the
character and advances, exactly as Python's regex engine does for these
patterns. -/

/-- Python `\s` (whitespace class) for text strings. -/
def isSpaceChar (c : Char) : Bool :=
  let n := c.toNat
  n = 32 || (9 ≤ n && n ≤ 13) || (28 ≤ n && n ≤ 31) || n = 0x85 ||
    n = 0xa0 || n = 0x1680 || (0x2000 ≤ n && n ≤ 0x200a) || n = 0x2028 ||
    n = 0x2029 || n = 0x202f || n = 0x205f || n = 0x3000

/-- The character class `[\u4e00-\u9fa5a-zA-Z0-9\s]` kept by the third
substitution of `clean_text`. -/
def isKeptChar (c : Char) : Bool :=
  let n := c.toNat
  (0x4e00 ≤ n && n ≤ 0x9fa5) || (97 ≤ n && n ≤ 122) ||
    (65 ≤ n && n ≤ 90) || (48 ≤ n && n ≤ 57) || isSpaceChar c

/-- Scan to the first `>` and return what follows it (`[^>]+>` after the
first mandatory non-`>` character). -/
def scanGt : List Char → Option (List Char)
  | [] => none
  | c :: rest => if c = '>' then some rest else scanGt rest

theorem scanGt_length : ∀ l r, scanGt l = some r → r.length < l.length := by
  intro l
  induction l with
  | nil => intro r h; simp [scanGt] at h
  | cons c rest ih =>
    intro r h
    by_cases hc : c = '>'
    · simp [scanGt, hc] at h
      subst h
      exact Nat.lt_succ_self _
    · simp [scanGt, hc] at h
      exact Nat.lt_succ_of_lt (ih r h)

/-- Attempt to match `<[^>]+>` given the characters after a `<`:
there must be at least one non-`>` character before the closing `>`. -/
def tagEnd : List Char → Option (List Char)
  | [] => none
  | c :: rest => if c = '>' then none else scanGt rest

theorem tagEnd_length : ∀ l r, tagEnd l = some r → r.length < l.length := by
  intro l r h
  match l with
  | [] => simp [tagEnd] at h
  | c :: rest =>
    by_cases hc : c = '>'
    · simp [tagEnd, hc] at h
    · simp [tagEnd, hc] at h
      exact Nat.lt_succ_of_lt (scanGt_length rest r h)

/-- `re.sub(r'<[^>]+>', '', text)`. -/
def removeTags : List Char → List Char
  | [] => []
  | c :: rest =>
    if c = '<' then
      match h : tagEnd rest with
      | some rest2 => removeTags rest2
      | none => c :: removeTags rest
    else c :: removeTags rest
termination_by l => l.length
decreasing_by
  all_goals simp_wf
  all_goals first
    | exact Nat.lt_succ_of_lt (tagEnd_length _ _ (by assumption))
    | exact Nat.lt_succ_self _

/-- Strip an explicit literal prefix, returning the remainder on success. -/
def dropLit : List Char → List Char → Option (List Char)
  | [], l => some l
  | _ :: _, [] => none
  | p :: ps, c :: cs => if c = p then dropLit ps cs else none

theorem dropLit_length :
    ∀ p l r, dropLit p l = some r → r.length + p.length = l.length := by
  intro p
  induction p with
  | nil => intro l r h; simp [dropLit] at h; simp [h]
  | cons x ps ih =>
    intro l r h
    match l with
    | [] => simp [dropLit] at h
    | c :: cs =>
      by_cases hc : c = x
      · simp [dropLit, hc] at h
        have := ih cs r h
        simp [List.length_cons]
        omega
      · simp [dropLit, hc] at h

theorem dropLit_mem :
    ∀ p l r, dropLit p l = some r → ∀ c, c ∈ p ∨ c ∈ r → c ∈ l := by
  intro p
  induction p with
  | nil =>
    intro l r h c hc
    simp [dropLit] at h
    subst h
    rcases hc with hc | hc
    · exact absurd hc (List.not_mem_nil c)
    · exact hc
  | cons x ps ih =>
    intro l r h c hc
    match l with
    | [] => simp [dropLit] at h
    | d :: cs =>
      by_cases hd : d = x
      · simp [dropLit, hd] at h
        rcases hc with hc | hc
        · rcases List.mem_cons.mp hc with hcx | hcp
          · subst hcx; subst hd; exact List.mem_cons_self _ _
          · exact List.mem_cons_of_mem _ (ih cs r h c (Or.inl hcp))
        · exact List.mem_cons_of_mem _ (ih cs r h c (Or.inr hc))
      · simp [dropLit, hd] at h

/-- The single-character alternatives of the URL regex
`(?:[a-zA-Z]|[0-9]|[$-_@.&+]|[!*\\(\\),]|(?:%[0-9a-fA-F][0-9a-fA-F]))`:
the union collapses to `[\x24-\x5f] ∪ [a-z] ∪ {'!'}` (the `%hh`
alternative is subsumed by the `$-_` range). -/
def isUrlChar (c : Char) : Bool :=
  let n := c.toNat
  (0x24 ≤ n && n ≤ 0x5f) || (97 ≤ n && n ≤ 122) || n = 0x21

/-- Attempt to match the URL pattern `http[s]?://X+` (with `X+` greedy) at
the head of `l`; returns the remainder after the match. -/
def matchUrl (l : List Char) : Option (List Char) :=
  match dropLit ("http".data) l with
  | none => none
  | some r1 =>
    let r2o : Option (List Char) :=
      match dropLit ("s://".data) r1 with
      | some r => some r
      | none => dropLit ("://".data) r1
    match r2o with
    | none => none
    | some r2 =>
      match r2 with
      | [] => none
      | c :: rest =>
        if isUrlChar c then some (rest.dropWhile isUrlChar) else none

theorem matchUrl_length : ∀ l r, matchUrl l = some r → r.length < l.length := by
  intro l r h
  unfold matchUrl at h
  cases h1 : dropLit ("http".data) l with
  | none => rw [h1] at h; simp at h
  | some r1 =>
    rw [h1] at h
    simp only at h
    have hl1 := dropLit_length _ _ _ h1
    cases h2 : (match dropLit ("s://".data) r1 with
      | some r => some r
      | none => dropLit ("://".data) r1) with
    | none => rw [h2] at h; simp at h
    | some r2 =>
      rw [h2] at h
      have hl2 : r2.length ≤ r1.length := by
        cases h3 : dropLit ("s://".data) r1 with
        | some r' =>
          rw [h3] at h2
          simp at h2
          subst h2
          have := dropLit_length _ _ _ h3
          omega
        | none =>
          rw [h3] at h2
          simp at h2
          have := dropLit_length _ _ _ h2
          omega
      match r2 with
      | [] => simp at h
      | c :: rest =>
        by_cases hc : isUrlChar c
        · simp [hc] at h
          subst h
          have hd : (rest.dropWhile isUrlChar).length ≤ rest.length :=
            (rest.dropWhile_sublist isUrlChar).length_le
          simp [List.length_cons] at hl2
          omega
        · simp [hc] at h

/-- `re.sub(r'http[s]?://(?:...)+', '', text)`. -/
def removeUrls : List Char → List Char
  | [] => []
  | c :: rest =>
    match h : matchUrl (c :: rest) with
    | some r => removeUrls r
    | none => c :: removeUrls rest
termination_by l => l.length
decreasing_by
  · exact matchUrl_length _ _ h
  · exact Nat.lt_succ_self _

/-- `re.sub(r'\s+', ' ', text)`: collapse each whitespace run to one
space. -/
def collapseWs : List Char → List Char
  | [] => []
  | [c] => if isSpaceChar c then [' '] else [c]
  | c :: d :: rest =>
    if isSpaceChar c then
      if isSpaceChar d then collapseWs (d :: rest)
      else ' ' :: collapseWs (d :: rest)
    else c :: collapseWs (d :: rest)

/-- Remove trailing whitespace. -/
def dropEndSp : List Char → List Char
  | [] => []
  | c :: t =>
    let r := dropEndSp t
    if r.isEmpty then (if isSpaceChar c then [] else [c])
    else c :: r

/-- Python `str.strip()`. -/
def stripSp (l : List Char) : List Char :=
  dropEndSp (l.dropWhile isSpaceChar)

/-- The four substitutions of `clean_text`, on character lists. -/
def cleanList (l : List Char) : List Char :=
  stripSp (collapseWs ((removeUrls (removeTags l)).filter isKeptChar))

/-- `clean_text` from `XueqiuCommentAnalyzer` / `XueqiuSimpleAnalyzer`
(the two copies are textually identical): `if not text: return ""`, then
the four substitutions. -/
def clean_text (text : String) : String :=
  if text = "" then "" else String.mk (cleanList text.data)

/-- `clean_text` applied to a possibly-`None` argument: `not None` is
true, so `None` also yields the empty string. -/
def clean_textOpt : Option String → String
  | none => ""
  | some t => clean_text t

/-! ### Definitions following the specification's words, for refinement
comparison with the source-derived definitions above. -/

/-- Written after the spec's words for the importance scorer, tier 2:
"the source name appears in the authoritative-source list", i.e. list
membership — to be compared with `NewsManager.determine_importance`,
whose tier 2 is a substring test. -/
def determine_importance_specV (config : NewsConfig)
    (title summary source : String) : Nat :=
  if ¬ config.auto_importance then 3
  else
    let text := lowerText title summary
    if config.critical_keywords.any (fun kw => substrB kw.data text) then 5
    else if config.authoritative_sources.contains source then 4
    else if config.important_keywords.any
        (fun kw => substrB kw.data text) then 3
    else if title.length > config.title_length_threshold then 3
    else 2

/-- Written after the spec's words for the classifier: "case-insensitive
substring match" — keyword and haystack both lower-cased — to be compared
with `NewsAggregator.categorize_news`, which lower-cases only the
haystack. -/
def firstMatchCatCI : List (NewsCategory × List String) → List Char →
    NewsCategory
  | [], _ => .SOCIETY
  | (c, kws) :: rest, text =>
    if kws.any (fun kw => substrB (lowerL kw.data) text) then c
    else firstMatchCatCI rest text

/-- The classifier per the spec's words over the crawler's rule order. -/
def categorize_news_specV (title summary : String) : NewsCategory :=
  firstMatchCatCI crawlerRules (lowerText title summary)

/-- Number of (possibly overlapping) occurrences of `needle` in `hay`. -/
def occCount (needle : List Char) : List Char → Nat
  | [] => 0
  | c :: t => (if needle.isPrefixOf (c :: t) then 1 else 0) + occCount needle t

/-- Written after the spec's words for sentiment: "counting occurrences of
the configured positive keywords and of the configured negative keywords
and comparing the two counts" — total occurrence counts — to be compared
with `analyze_sentiment`, which counts each keyword at most once. -/
def analyze_sentiment_specV (text : String) : String :=
  let text_lower := lowerL text.data
  let positive_count :=
    (XueqiuSimpleAnalyzer.positive_words.map
      (fun w => occCount w.data text_lower)).sum
  let negative_count :=
    (XueqiuSimpleAnalyzer.negative_words.map
      (fun w => occCount w.data text_lower)).sum
  if positive_count > negative_count then "乐观"
  else if negative_count > positive_count then "悲观"
  else "中性"

/-! ### Proof-support predicates and sample values -/

/-- Every whitespace character of `l` is a plain space. -/
def allSpOk (l : List Char) : Bool :=
  l.all (fun c => !isSpaceChar c || c == ' ')

/-- No two adjacent whitespace characters. -/
def noDbl : List Char → Bool
  | a :: b :: t => (!(isSpaceChar a && isSpaceChar b)) && noDbl (b :: t)
  | _ => true

/-- The first character, if any, is not whitespace. -/
def headOk : List Char → Bool
  | [] => true
  | c :: _ => !isSpaceChar c

/-- The last character, if any, is not whitespace. -/
def lastOk : List Char → Bool
  | [] => true
  | [c] => !isSpaceChar c
  | _ :: t => lastOk t

/-- A configuration whose authoritative-source list is `["新华社"]` and
whose keyword lists are empty, for exercising the scorer's tier 2. -/
def cfgAuthOnly : NewsConfig := { authoritative_sources := ["新华社"] }

/-- A sample item for exercising `get_top_news`. -/
def exNews (t : String) (imp : Nat) : NewsItem :=
  { title := t, summary := "", category := .SOCIETY, source := "",
    importance := imp }

/-- Items with importances `[3, 5, 5, 2, 5]` in insertion order. -/
def exList : List NewsItem :=
  [exNews "n1" 3, exNews "n2" 5, exNews "n3" 5, exNews "n4" 2, exNews "n5" 5]

/-! ### Claims -/

/-- C10: `add_news` validates nothing: it appends exactly one item whose
fields equal the arguments as passed (defaults `url = ""`,
`publish_time = ""`, `importance = 1` when omitted), leaves all previously
stored items unchanged, grows the count by exactly one, and stores an
out-of-range importance unchanged. -/
theorem C10_add_news_appends_unvalidated (news_items : List NewsItem)
    (title summary : String) (category : NewsCategory)
    (source url publish_time : String) (importance : Nat) :
    NewsDigest.add_news news_items title summary category source url
        publish_time importance =
      news_items ++ [⟨title, summary, category, source, url,
                      publish_time, importance⟩] ∧
    (NewsDigest.add_news news_items title summary category source url
        publish_time importance).length = news_items.length + 1 ∧
    (NewsDigest.add_news news_items title summary category source url
        publish_time importance).take news_items.length = news_items ∧
    NewsDigest.add_news news_items title summary category source =
      news_items ++ [⟨title, summary, category, source, "", "", 1⟩] := by
  refine ⟨rfl, ?_, ?_, rfl⟩
  · simp [NewsDigest.add_news]
  · simp [NewsDigest.add_news, List.take_left]

/-- C9: both importance scorers only ever return values in `[1, 5]`. -/
theorem C9_importance_in_range (config : NewsConfig)
    (title summary source : String) :
    (1 ≤ NewsManager.determine_importance config title summary source ∧
      NewsManager.determine_importance config title summary source ≤ 5) ∧
    (1 ≤ NewsAggregator.determine_importance title summary source ∧
      NewsAggregator.determine_importance title summary source ≤ 5) := by
  constructor
  · unfold NewsManager.determine_importance
    dsimp only
    split_ifs <;> omega
  · unfold NewsAggregator.determine_importance
    dsimp only
    split_ifs <;> omega

/-- C2 counterexample: a malformed configuration document does NOT fall
back to the defaults — only `FileNotFoundError` is caught, so the YAML
parse error propagates out of both loaders. -/
theorem C2_counterexample_malformed_config_raises :
    NewsManager.load_config (.present .invalid) = .error "YAMLError" ∧
    NewsManager.load_config (.present .invalid) ≠
      .ok NewsManager.get_default_config ∧
    XueqiuCommentAnalyzer.load_config (.present .invalid) =
      .error "YAMLError" := by
  refine ⟨rfl, ?_, rfl⟩
  intro h
  rw [show NewsManager.load_config (.present .invalid) =
    .error "YAMLError" from rfl] at h
  exact Except.noConfusion h

/-- C2 (amended): a missing configuration file falls back to the built-in
default configuration and loading succeeds; a well-formed file is returned
as parsed; but a malformed document raises the YAML parse error — only the
missing-file case is recovered. -/
theorem C2_amended_config_loading :
    (NewsManager.load_config .absent = .ok NewsManager.get_default_config) ∧
    (∀ c, NewsManager.load_config (.present (.valid c)) = .ok c) ∧
    (NewsManager.load_config (.present .invalid) = .error "YAMLError") ∧
    (XueqiuCommentAnalyzer.load_config .absent =
      .ok XueqiuCommentAnalyzer.default_config) ∧
    (∀ c, XueqiuCommentAnalyzer.load_config (.present (.valid c)) = .ok c) ∧
    (XueqiuCommentAnalyzer.load_config (.present .invalid) =
      .error "YAMLError") :=
  ⟨rfl, fun _ => rfl, rfl, rfl, fun _ => rfl, rfl⟩

/-- C7: on an empty digest `generate_digest` returns the fixed no-items
message, which contains neither the report header marker, nor the top-N
headline marker, nor any per-category section marker. -/
theorem C7_empty_digest_fixed_message (today gen_time : String) :
    NewsDigest.generate_digest today gen_time [] = "今日暂无新闻" ∧
    substrB "📰".data "今日暂无新闻".data = false ∧
    substrB "🔥".data "今日暂无新闻".data = false ∧
    substrB "📋".data "今日暂无新闻".data = false ∧
    substrB "=".data "今日暂无新闻".data = false :=
  ⟨rfl, by decide, by decide, by decide, by decide⟩

/-- C1 counterexample: tier 2 of `NewsManager.determine_importance` is a
substring test, so the source `"新华"`, which is NOT an element of the
authoritative-source list `["新华社"]`, still scores 4; the spec-faithful
scorer gives 2.  The crawler variant scores 4 for an arbitrary
non-authoritative source because its tier-2 test ignores the source
parameter altogether. -/
theorem C1_counterexample_tier2_not_membership :
    NewsManager.determine_importance cfgAuthOnly "短" "" "新华" = 4 ∧
    cfgAuthOnly.authoritative_sources.contains "新华" = false ∧
    determine_importance_specV cfgAuthOnly "短" "" "新华" = 2 ∧
    NewsAggregator.determine_importance "晴" "" "某某博客" = 4 ∧
    NewsAggregator.crawler_authoritative_sources.contains "某某博客" =
      false := by
  refine ⟨by decide, by decide, by decide, by decide, by decide⟩

/-- C1 (amended): the scorer is a strict four-tier decision list over the
lower-cased concatenation of title and summary — critical keyword → 5,
else tier 2 → 4, else important keyword → 3, else long title → 3, else 2 —
but tier 2 of `NewsManager.determine_importance` fires when the source is
a SUBSTRING of some entry of the authoritative-source list (membership is
a special case), and tier 2 of `NewsAggregator.determine_importance` fires
for every input (its test ignores the source), so the crawler scorer only
ever returns 5 or 4.  An input containing both a critical and an important
keyword still scores 5. -/
theorem C1_amended_decision_list (config : NewsConfig)
    (title summary source : String) :
    (config.auto_importance = false →
      NewsManager.determine_importance config title summary source = 3) ∧
    (config.auto_importance = true →
      config.critical_keywords.any
        (fun kw => substrB kw.data (lowerText title summary)) = true →
      NewsManager.determine_importance config title summary source = 5) ∧
    (config.auto_importance = true →
      config.critical_keywords.any
        (fun kw => substrB kw.data (lowerText title summary)) = false →
      config.authoritative_sources.any
        (fun auth_source => substrB source.data auth_source.data) = true →
      NewsManager.determine_importance config title summary source = 4) ∧
    (config.auto_importance = true →
      config.critical_keywords.any
        (fun kw => substrB kw.data (lowerText title summary)) = false →
      config.authoritative_sources.any
        (fun auth_source => substrB source.data auth_source.data) = false →
      config.important_keywords.any
        (fun kw => substrB kw.data (lowerText title summary)) = true →
      NewsManager.determine_importance config title summary source = 3) ∧
    (config.auto_importance = true →
      config.critical_keywords.any
        (fun kw => substrB kw.data (lowerText title summary)) = false →
      config.authoritative_sources.any
        (fun auth_source => substrB source.data auth_source.data) = false →
      config.important_keywords.any
        (fun kw => substrB kw.data (lowerText title summary)) = false →
      NewsManager.determine_importance config title summary source =
        (if title.length > config.title_length_threshold then 3 else 2)) ∧
    (NewsAggregator.crawler_important_keywords.any
        (fun kw => substrB kw.data (lowerText title summary)) = true →
      NewsAggregator.determine_importance title summary source = 5) ∧
    (NewsAggregator.crawler_important_keywords.any
        (fun kw => substrB kw.data (lowerText title summary)) = false →
      NewsAggregator.determine_importance title summary source = 4) := by
  unfold NewsManager.determine_importance NewsAggregator.determine_importance
  dsimp only
  refine ⟨?_, ?_, ?_, ?_, ?_, ?_, ?_⟩
  · intro h; simp [h]
  · intro h h1; simp [h, h1]
  · intro h h1 h2; simp [h, h1, h2]
  · intro h h1 h2 h3; simp [h, h1, h2, h3]
  · intro h h1 h2 h3; simp [h, h1, h2, h3]
  · intro h1; simp [h1]
  · intro h1
    have h2 : NewsAggregator.crawler_authoritative_sources.any
        (fun src => NewsAggregator.crawler_authoritative_sources.contains
          src) = true := by decide
    simp only [h1, h2, Bool.false_eq_true, if_false, if_true]

/-- C1 witness: the amended tier-2 clause applied at a concrete input. -/
theorem C1_amended_decision_list_witness :
    NewsManager.determine_importance cfgAuthOnly "短" "" "新华社" = 4 :=
  (C1_amended_decision_list cfgAuthOnly "短" "" "新华社").2.2.1
    (by decide) (by decide) (by decide)

/-- C8 counterexample: `analyze_sentiment` counts each configured keyword
at most once, not its occurrences.  On `"涨涨跌割肉"` the positive keyword
`涨` occurs twice (occurrence counts tie 2–2, so the claim demands
Neutral), but the code counts one distinct positive keyword against two
distinct negative keywords and returns Negative. -/
theorem C8_counterexample_counts_distinct_keywords :
    XueqiuSimpleAnalyzer.analyze_sentiment "涨涨跌割肉" = "悲观" ∧
    analyze_sentiment_specV "涨涨跌割肉" = "中性" ∧
    XueqiuSimpleAnalyzer.analyze_sentiment "涨涨跌割肉" ≠
      analyze_sentiment_specV "涨涨跌割肉" := by
  refine ⟨by decide, by decide, by decide⟩

/-- C8 (amended): `sentiment(t)` counts, over the lower-cased text, how
many DISTINCT configured positive keywords occur and how many DISTINCT
configured negative keywords occur, and compares those two counts: more
positive → Positive (乐观), more negative → Negative (悲观), tie →
Neutral (中性). -/
theorem C8_amended_sentiment_by_distinct_counts (text : String) :
    (XueqiuSimpleAnalyzer.positive_words.countP
        (fun w => substrB w.data (lowerL text.data)) >
      XueqiuSimpleAnalyzer.negative_words.countP
        (fun w => substrB w.data (lowerL text.data)) →
      XueqiuSimpleAnalyzer.analyze_sentiment text = "乐观") ∧
    (XueqiuSimpleAnalyzer.negative_words.countP
        (fun w => substrB w.data (lowerL text.data)) >
      XueqiuSimpleAnalyzer.positive_words.countP
        (fun w => substrB w.data (lowerL text.data)) →
      XueqiuSimpleAnalyzer.analyze_sentiment text = "悲观") ∧
    (XueqiuSimpleAnalyzer.positive_words.countP
        (fun w => substrB w.data (lowerL text.data)) =
      XueqiuSimpleAnalyzer.negative_words.countP
        (fun w => substrB w.data (lowerL text.data)) →
      XueqiuSimpleAnalyzer.analyze_sentiment text = "中性") := by
  unfold XueqiuSimpleAnalyzer.analyze_sentiment
  dsimp only
  refine ⟨?_, ?_, ?_⟩ <;> intro h <;> split_ifs with h1 h2 <;>
    first | rfl | omega

/-- C8 witness: equal counts on the empty text give Neutral. -/
theorem C8_amended_sentiment_witness :
    XueqiuSimpleAnalyzer.analyze_sentiment "" = "中性" :=
  (C8_amended_sentiment_by_distinct_counts "").2.2 (by decide)

/-- C3 counterexample: the item filter is not total on malformed records —
under the default configuration, this record with no `title` key raises
`KeyError` at the title-length check (the default blacklists are empty,
so the lazy blacklist generators never touch the missing keys). -/
theorem C3_counterexample_missing_title_raises :
    NewsManager.filter_news {} ⟨none, none, none⟩ =
      .error "KeyError: title" := rfl

/-- C3 (amended): for every record that HAS both a `title` and a `summary`
field — including empty strings — `filter_news` returns a boolean and
never raises, for every configuration.  (On records lacking those fields
the filter is not total — see the counterexample — though an earlier
check may still reject such a record before the missing key is read.) -/
theorem C3_amended_filter_total_on_wellformed (config : NewsConfig)
    (title summary : String) (src : Option String) :
    ∃ b : Bool, NewsManager.filter_news config
      ⟨some title, some summary, src⟩ = .ok b := by
  unfold NewsManager.filter_news
  obtain ⟨tb, htb⟩ :
      ∃ x, blacklistAny config.title_blacklist (some title) "title" =
        .ok x := by
    cases config.title_blacklist
    · exact ⟨false, rfl⟩
    · exact ⟨_, rfl⟩
  dsimp only
  rw [htb]
  dsimp only [getItem]
  cases tb
  · simp only [Bool.false_eq_true, if_false]
    split
    · exact ⟨false, rfl⟩
    · split
      · exact ⟨false, rfl⟩
      · split
        · exact ⟨false, rfl⟩
        · exact ⟨true, rfl⟩
  · exact ⟨false, rfl⟩

/-- C5 counterexample: keyword matching is NOT case-insensitive — only the
haystack is lower-cased.  The input title `"AI"` lower-cases to `"ai"`, so
the upper-case technology keyword `AI` does not match and the code falls
through to the default Society, while a case-insensitive matcher (per the
spec's words) returns Technology. -/
theorem C5_counterexample_not_case_insensitive :
    NewsAggregator.categorize_news "AI" "" = NewsCategory.SOCIETY ∧
    categorize_news_specV "AI" "" = NewsCategory.TECHNOLOGY ∧
    NewsAggregator.categorize_news "AI" "" ≠ categorize_news_specV "AI" "" := by
  refine ⟨by decide, by decide, by decide⟩

/-- C5 (amended): the classifier evaluates candidate categories in a fixed
priority order over the lower-cased concatenation of title and summary and
returns the first category one of whose keywords occurs verbatim in that
lower-cased text (so keywords containing upper-case letters never match);
earlier categories mask later ones, and when nothing matches the default
is Society.  The crawler's if-chain equals the first-match evaluation of
its ordered rule list; the manager variant returns Society when
auto-categorisation is off or when no configured keyword matches, and
returns the first configured category whose keywords match and whose label
is a member's `.value`. -/
theorem C5_amended_first_match_classifier (title summary : String) :
    NewsAggregator.categorize_news title summary =
      firstMatchCat crawlerRules (lowerText title summary) ∧
    (∀ (pre post : List (NewsCategory × List String)) (c : NewsCategory)
        (kws : List String) (text : List Char),
      (∀ p ∈ pre, ∀ kw ∈ p.2, substrB kw.data text = false) →
      kws.any (fun kw => substrB kw.data text) = true →
      firstMatchCat (pre ++ (c, kws) :: post) text = c) ∧
    (∀ (rules : List (NewsCategory × List String)) (text : List Char),
      (∀ p ∈ rules, ∀ kw ∈ p.2, substrB kw.data text = false) →
      firstMatchCat rules text = NewsCategory.SOCIETY) ∧
    (∀ config : NewsConfig, config.auto_categorize = false →
      NewsManager.auto_categorize config title summary =
        NewsCategory.SOCIETY) ∧
    (∀ config : NewsConfig,
      (∀ r ∈ config.categories, ∀ kw ∈ r.keywords,
        substrB kw.data (lowerText title summary) = false) →
      NewsManager.auto_categorize config title summary =
        NewsCategory.SOCIETY) ∧
    (∀ (pre post : List CategoryRule) (r : CategoryRule) (c : NewsCategory)
        (text : List Char),
      (∀ r' ∈ pre, ∀ kw ∈ r'.keywords, substrB kw.data text = false) →
      r.keywords.any (fun kw => substrB kw.data text) = true →
      NewsCategory.all.find? (fun x => x.value = r.name) = some c →
      NewsManager.categorizeGo text (pre ++ r :: post) = c) := by
  refine ⟨rfl, ?_, ?_, ?_, ?_, ?_⟩
  · intro pre post c kws text hpre hmatch
    induction pre with
    | nil => simp [firstMatchCat, hmatch]
    | cons p pre ih =>
      obtain ⟨c', kws'⟩ := p
      have hnone : kws'.any (fun kw => substrB kw.data text) = false := by
        simp only [List.any_eq_false]
        intro kw hkw
        simpa using hpre ⟨c', kws'⟩ (List.mem_cons_self _ _) kw hkw
      simp only [List.cons_append, firstMatchCat, hnone,
        Bool.false_eq_true, if_false]
      exact ih fun p hp kw hkw => hpre p (List.mem_cons_of_mem _ hp) kw hkw
  · intro rules text hrules
    induction rules with
    | nil => rfl
    | cons p rules ih =>
      obtain ⟨c', kws'⟩ := p
      have hnone : kws'.any (fun kw => substrB kw.data text) = false := by
        simp only [List.any_eq_false]
        intro kw hkw
        simpa using hrules ⟨c', kws'⟩ (List.mem_cons_self _ _) kw hkw
      simp only [firstMatchCat, hnone, Bool.false_eq_true, if_false]
      exact ih fun p hp kw hkw => hrules p (List.mem_cons_of_mem _ hp) kw hkw
  · intro config h
    simp [NewsManager.auto_categorize, h]
  · intro config hnomatch
    unfold NewsManager.auto_categorize
    split
    · rfl
    · have : ∀ cats : List CategoryRule,
          (∀ r ∈ cats, ∀ kw ∈ r.keywords,
            substrB kw.data (lowerText title summary) = false) →
          NewsManager.categorizeGo (lowerText title summary) cats =
            NewsCategory.SOCIETY := by
        intro cats
        induction cats with
        | nil => intro _; rfl
        | cons r cats ih =>
          intro hc
          have hnone : r.keywords.any
              (fun kw => substrB kw.data (lowerText title summary)) =
                false := by
            simp only [List.any_eq_false]
            intro kw hkw
            simpa using hc r (List.mem_cons_self _ _) kw hkw
          simp only [NewsManager.categorizeGo, hnone, Bool.false_eq_true,
            if_false]
          exact ih fun r' hr' kw hkw =>
            hc r' (List.mem_cons_of_mem _ hr') kw hkw
      exact this config.categories hnomatch
  · intro pre post r c text hpre hmatch hfind
    induction pre with
    | nil =>
      simp only [List.nil_append, NewsManager.categorizeGo, hmatch,
        if_true, hfind]
    | cons r' pre ih =>
      have hnone : r'.keywords.any (fun kw => substrB kw.data text) =
          false := by
        simp only [List.any_eq_false]
        intro kw hkw
        simpa using hpre r' (List.mem_cons_self _ _) kw hkw
      simp only [List.cons_append, NewsManager.categorizeGo, hnone,
        Bool.false_eq_true, if_false]
      exact ih fun p hp kw hkw => hpre p (List.mem_cons_of_mem _ hp) kw hkw

/-- Filtering one importance class through an ordered insertion keeps the
class's elements in place: the inserted item lands in front of exactly the
items of its own class (everything skipped has strictly larger
importance). -/
theorem filter_orderedInsert (v : Nat) (a : NewsItem) (m : List NewsItem) :
    (m.orderedInsert NewsDigest.impGe a).filter
        (fun x => x.importance == v) =
      if a.importance == v then
        a :: m.filter (fun x => x.importance == v)
      else m.filter (fun x => x.importance == v) := by
  induction m with
  | nil =>
    rw [List.orderedInsert, List.filter_cons, List.filter_nil]
  | cons b l ih =>
    rw [List.orderedInsert]
    split
    · rw [List.filter_cons]
    · next h =>
      rw [List.filter_cons, ih, List.filter_cons]
      by_cases hb : b.importance = v <;> by_cases ha : a.importance = v
      · exfalso
        exact h (show NewsDigest.impGe a b by
          unfold NewsDigest.impGe; omega)
      · simp [ha, hb]
      · simp [ha, hb]
      · simp [ha, hb]

/-- Stability of the modelled Python sort: filtering any single importance
class out of the sorted list gives the same sequence as filtering it out
of the input (ties stay in insertion order). -/
theorem insertionSort_filter_stable (v : Nat) (l : List NewsItem) :
    (List.insertionSort NewsDigest.impGe l).filter
        (fun x => x.importance == v) =
      l.filter (fun x => x.importance == v) := by
  induction l with
  | nil => rfl
  | cons a l ih =>
    rw [List.insertionSort, filter_orderedInsert, ih, List.filter_cons]

/-- C4: `get_top_news` sorts stably, descending by importance — the result
is sorted descending; when `n` is at least the collection size it returns
all items (a permutation of the input) with each importance class in its
original insertion order; and on importances `[3,5,5,2,5]`, `top(3)`
returns the three importance-5 items in their original relative order. -/
theorem C4_top_news_stable_descending :
    (∀ (items : List NewsItem) (n : Nat),
      List.Sorted NewsDigest.impGe (NewsDigest.get_top_news items n)) ∧
    (∀ (items : List NewsItem) (n : Nat), items.length ≤ n →
      (NewsDigest.get_top_news items n).Perm items ∧
      (∀ v : Nat, (NewsDigest.get_top_news items n).filter
          (fun x => x.importance == v) =
        items.filter (fun x => x.importance == v))) ∧
    NewsDigest.get_top_news exList 3 =
      [exNews "n2" 5, exNews "n3" 5, exNews "n5" 5] := by
  refine ⟨?_, ?_, by decide⟩
  · intro items n
    exact List.Pairwise.sublist (List.take_sublist n _)
      (List.sorted_insertionSort NewsDigest.impGe items)
  · intro items n h
    have hall : NewsDigest.get_top_news items n =
        List.insertionSort NewsDigest.impGe items := by
      unfold NewsDigest.get_top_news
      exact List.take_of_length_le (by simpa using h)
    rw [hall]
    exact ⟨List.perm_insertionSort NewsDigest.impGe items,
      fun v => insertionSort_filter_stable v items⟩

/-- C4 witness: with `n = 9` exceeding the five-item collection, all items
are returned, stably per importance class. -/
theorem C4_top_news_stable_descending_witness :
    (NewsDigest.get_top_news exList 9).Perm exList ∧
    (NewsDigest.get_top_news exList 9).filter
        (fun x => x.importance == 5) =
      exList.filter (fun x => x.importance == 5) :=
  ⟨(C4_top_news_stable_descending.2.1 exList 9 (by decide)).1,
   (C4_top_news_stable_descending.2.1 exList 9 (by decide)).2 5⟩

/-- C5 witness: with the politics rule not matching and the economy rule
matching, first-match evaluation returns Economy (priority masking at a
concrete input). -/
theorem C5_amended_first_match_witness :
    firstMatchCat ([(NewsCategory.POLITICS,
        NewsAggregator.politics_keywords)] ++
      (NewsCategory.ECONOMY, NewsAggregator.economy_keywords) ::
        crawlerRules.drop 2) (lowerText "经济" "") =
      NewsCategory.ECONOMY :=
  (C5_amended_first_match_classifier "经济" "").2.1
    [(NewsCategory.POLITICS, NewsAggregator.politics_keywords)]
    (crawlerRules.drop 2) NewsCategory.ECONOMY
    NewsAggregator.economy_keywords (lowerText "经济" "")
    (by decide) (by decide)

/-- A non-space head survives whitespace collapsing in place. -/
theorem collapseWs_cons_nonsp (d : Char) (rest : List Char)
    (h : isSpaceChar d = false) :
    ∃ t2, collapseWs (d :: rest) = d :: t2 := by
  cases rest with
  | nil => exact ⟨[], by simp [collapseWs, h]⟩
  | cons e t => exact ⟨collapseWs (e :: t), by simp [collapseWs, h]⟩

/-- Whitespace collapsing emits only plain spaces as whitespace. -/
theorem allSpOk_collapseWs : ∀ l, allSpOk (collapseWs l) = true := by
  intro l
  induction l with
  | nil => rfl
  | cons c t ih =>
    cases t with
    | nil =>
      by_cases h : isSpaceChar c = true
      · simp [collapseWs, h, allSpOk]
      · simp only [Bool.not_eq_true] at h
        simp [collapseWs, h, allSpOk]
    | cons d t2 =>
      by_cases hc : isSpaceChar c = true
      · by_cases hd : isSpaceChar d = true
        · simpa [collapseWs, hc, hd] using ih
        · simp only [Bool.not_eq_true] at hd
          simpa [collapseWs, hc, hd, allSpOk] using ih
      · simp only [Bool.not_eq_true] at hc
        simpa [collapseWs, hc, allSpOk] using ih

/-- `noDbl` ignores a non-space head. -/
theorem noDbl_cons_nonsp (c : Char) (x : List Char)
    (h : isSpaceChar c = false) : noDbl (c :: x) = noDbl x := by
  cases x <;> simp [noDbl, h]

/-- `noDbl` passes to the tail. -/
theorem noDbl_tail (c : Char) (t : List Char) (h : noDbl (c :: t) = true) :
    noDbl t = true := by
  cases t with
  | nil => rfl
  | cons d t2 =>
    simp only [noDbl, Bool.and_eq_true] at h
    exact h.2

/-- Whitespace collapsing never leaves two adjacent whitespace
characters. -/
theorem noDbl_collapseWs : ∀ l, noDbl (collapseWs l) = true := by
  intro l
  induction l with
  | nil => rfl
  | cons c t ih =>
    cases t with
    | nil =>
      by_cases h : isSpaceChar c = true
      · simp [collapseWs, h, noDbl]
      · simp only [Bool.not_eq_true] at h
        simp [collapseWs, h, noDbl]
    | cons d t2 =>
      by_cases hc : isSpaceChar c = true
      · by_cases hd : isSpaceChar d = true
        · simpa [collapseWs, hc, hd] using ih
        · simp only [Bool.not_eq_true] at hd
          obtain ⟨t3, h3⟩ := collapseWs_cons_nonsp d t2 hd
          rw [collapseWs]
          simp only [hc, hd, if_true, Bool.false_eq_true, if_false]
          rw [h3, noDbl]
          simp only [hd, Bool.and_false, Bool.not_false, Bool.true_and]
          rw [← h3]
          exact ih
      · simp only [Bool.not_eq_true] at hc
        rw [collapseWs]
        simp only [hc, Bool.false_eq_true, if_false]
        rw [noDbl_cons_nonsp c _ hc]
        exact ih

/-- Characters of the collapsed list come from the input or are spaces. -/
theorem mem_collapseWs : ∀ l c, c ∈ collapseWs l → c ∈ l ∨ c = ' ' := by
  intro l
  induction l with
  | nil => intro c hc; exact absurd hc (List.not_mem_nil c)
  | cons a t ih =>
    cases t with
    | nil =>
      intro c hc
      by_cases h : isSpaceChar a = true
      · simp [collapseWs, h] at hc
        exact Or.inr hc
      · simp only [Bool.not_eq_true] at h
        simp [collapseWs, h] at hc
        exact Or.inl (by simp [hc])
    | cons d t2 =>
      intro c hc
      by_cases ha : isSpaceChar a = true
      · by_cases hd : isSpaceChar d = true
        · rw [collapseWs] at hc
          simp only [ha, hd, if_true] at hc
          rcases ih c hc with h | h
          · exact Or.inl (List.mem_cons_of_mem _ h)
          · exact Or.inr h
        · simp only [Bool.not_eq_true] at hd
          rw [collapseWs] at hc
          simp only [ha, hd, if_true, Bool.false_eq_true, if_false] at hc
          rcases List.mem_cons.mp hc with h | h
          · exact Or.inr h
          · rcases ih c h with h2 | h2
            · exact Or.inl (List.mem_cons_of_mem _ h2)
            · exact Or.inr h2
      · simp only [Bool.not_eq_true] at ha
        rw [collapseWs] at hc
        simp only [ha, Bool.false_eq_true, if_false] at hc
        rcases List.mem_cons.mp hc with h | h
        · exact Or.inl (by simp [h])
        · rcases ih c h with h2 | h2
          · exact Or.inl (List.mem_cons_of_mem _ h2)
          · exact Or.inr h2

/-- Whitespace collapsing is the identity on lists whose whitespace is
already plain single spaces. -/
theorem collapseWs_eq_self : ∀ l, allSpOk l = true → noDbl l = true →
    collapseWs l = l := by
  intro l
  induction l with
  | nil => intro _ _; rfl
  | cons c t ih =>
    intro hsp hdbl
    cases t with
    | nil =>
      by_cases h : isSpaceChar c = true
      · have hc : c = ' ' := by
          simp [allSpOk, h] at hsp
          exact hsp
        simp [collapseWs, h, hc]
      · simp only [Bool.not_eq_true] at h
        simp [collapseWs, h]
    | cons d t2 =>
      have hsp2 : allSpOk (d :: t2) = true := by
        simp only [allSpOk, List.all_cons, Bool.and_eq_true] at hsp ⊢
        exact hsp.2
      have hdbl2 : noDbl (d :: t2) = true := noDbl_tail _ _ hdbl
      by_cases hc : isSpaceChar c = true
      · have hcsp : c = ' ' := by
          simp only [allSpOk, List.all_cons, Bool.and_eq_true] at hsp
          have := hsp.1
          simp [hc] at this
          exact this
        have hd : isSpaceChar d = false := by
          rw [noDbl] at hdbl
          simp only [Bool.and_eq_true, Bool.not_eq_true',
            Bool.and_eq_false_iff] at hdbl
          rcases hdbl.1 with h | h
          · rw [h] at hc; exact absurd hc (by simp)
          · exact h
        rw [collapseWs]
        simp only [hc, hd, if_true, Bool.false_eq_true, if_false]
        rw [ih hsp2 hdbl2, hcsp]
      · simp only [Bool.not_eq_true] at hc
        rw [collapseWs]
        simp only [hc, Bool.false_eq_true, if_false]
        rw [ih hsp2 hdbl2]

/-- Dropping leading whitespace leaves a non-space head. -/
theorem headOk_dropWhileSp : ∀ l : List Char,
    headOk (l.dropWhile isSpaceChar) = true := by
  intro l
  induction l with
  | nil => rfl
  | cons c t ih =>
    by_cases h : isSpaceChar c = true
    · simpa [List.dropWhile_cons, h] using ih
    · simp only [Bool.not_eq_true] at h
      simp [List.dropWhile_cons, h, headOk]

/-- `allSpOk` restricts to any subset of the characters. -/
theorem allSpOk_of_sub (l m : List Char) (h : allSpOk l = true)
    (hs : ∀ c ∈ m, c ∈ l) : allSpOk m = true := by
  simp only [allSpOk, List.all_eq_true] at h ⊢
  exact fun c hc => h c (hs c hc)

/-- Dropping leading whitespace preserves `noDbl`. -/
theorem noDbl_dropWhileSp : ∀ l : List Char, noDbl l = true →
    noDbl (l.dropWhile isSpaceChar) = true := by
  intro l
  induction l with
  | nil => intro _; rfl
  | cons c t ih =>
    intro h
    by_cases hc : isSpaceChar c = true
    · simpa [List.dropWhile_cons, hc] using ih (noDbl_tail _ _ h)
    · simp only [Bool.not_eq_true] at hc
      simpa [List.dropWhile_cons, hc] using h

/-- Characters survive `dropEndSp` only from the input. -/
theorem mem_dropEndSp : ∀ l c, c ∈ dropEndSp l → c ∈ l := by
  intro l
  induction l with
  | nil => intro c hc; exact absurd hc (List.not_mem_nil c)
  | cons d t ih =>
    intro c hc
    rw [dropEndSp] at hc
    by_cases hr : (dropEndSp t).isEmpty = true
    · simp only [hr, if_true] at hc
      by_cases hd : isSpaceChar d = true
      · simp [hd] at hc
      · simp only [Bool.not_eq_true] at hd
        simp [hd] at hc
        simp [hc]
    · simp only [Bool.not_eq_true] at hr
      simp only [hr, Bool.false_eq_true, if_false] at hc
      rcases List.mem_cons.mp hc with h | h
      · simp [h]
      · exact List.mem_cons_of_mem _ (ih c h)

/-- When trailing-whitespace removal keeps anything of `d :: t`, it keeps
the head `d` in place. -/
theorem dropEndSp_cons_of_ne (d : Char) (t : List Char)
    (h : dropEndSp (d :: t) ≠ []) :
    ∃ t2, dropEndSp (d :: t) = d :: t2 := by
  rw [dropEndSp] at h ⊢
  by_cases hr : (dropEndSp t).isEmpty = true
  · simp only [hr, if_true] at h ⊢
    by_cases hd : isSpaceChar d = true
    · simp [hd] at h
    · simp only [Bool.not_eq_true] at hd
      exact ⟨[], by simp [hd]⟩
  · simp only [Bool.not_eq_true] at hr
    simp only [hr, Bool.false_eq_true, if_false]
    exact ⟨dropEndSp t, rfl⟩

/-- `lastOk` ignores the head when the tail is non-empty. -/
theorem lastOk_cons_of_ne (c : Char) (r : List Char) (h : r ≠ []) :
    lastOk (c :: r) = lastOk r := by
  cases r with
  | nil => exact absurd rfl h
  | cons x xs => rfl

/-- Removing trailing whitespace leaves a non-space last character. -/
theorem lastOk_dropEndSp : ∀ l : List Char, lastOk (dropEndSp l) = true := by
  intro l
  induction l with
  | nil => rfl
  | cons c t ih =>
    rw [dropEndSp]
    by_cases hr : (dropEndSp t).isEmpty = true
    · simp only [hr, if_true]
      by_cases hc : isSpaceChar c = true
      · simp [hc, lastOk]
      · simp only [Bool.not_eq_true] at hc
        simp [hc, lastOk]
    · simp only [Bool.not_eq_true] at hr
      simp only [hr, Bool.false_eq_true, if_false]
      rw [lastOk_cons_of_ne c _ (by
        intro he
        rw [he] at hr
        simp at hr)]
      exact ih

/-- Removing trailing whitespace preserves `noDbl`. -/
theorem noDbl_dropEndSp : ∀ l : List Char, noDbl l = true →
    noDbl (dropEndSp l) = true := by
  intro l
  induction l with
  | nil => intro _; rfl
  | cons c t ih =>
    intro h
    rw [dropEndSp]
    by_cases hr : (dropEndSp t).isEmpty = true
    · simp only [hr, if_true]
      by_cases hc : isSpaceChar c = true
      · simp [hc, noDbl]
      · simp only [Bool.not_eq_true] at hc
        simp [hc, noDbl]
    · simp only [Bool.not_eq_true] at hr
      simp only [hr, Bool.false_eq_true, if_false]
      have hne : dropEndSp t ≠ [] := by
        intro he
        rw [he] at hr
        simp at hr
      cases t with
      | nil => exact absurd rfl hne
      | cons d t2 =>
        obtain ⟨t3, h3⟩ := dropEndSp_cons_of_ne d t2 hne
        rw [h3, noDbl]
        have hpair : (!(isSpaceChar c && isSpaceChar d)) = true := by
          have h2 := h
          rw [noDbl, Bool.and_eq_true] at h2
          exact h2.1
        rw [hpair, Bool.true_and]
        rw [show (d :: t3) = dropEndSp (d :: t2) from h3.symm]
        exact ih (noDbl_tail _ _ h)

/-- Removing trailing whitespace preserves a non-space head. -/
theorem headOk_dropEndSp : ∀ l : List Char, headOk l = true →
    headOk (dropEndSp l) = true := by
  intro l h
  cases l with
  | nil => rfl
  | cons c t =>
    rw [dropEndSp]
    by_cases hr : (dropEndSp t).isEmpty = true
    · simp only [hr, if_true]
      by_cases hc : isSpaceChar c = true
      · simp [hc, headOk]
      · simp only [Bool.not_eq_true] at hc
        simp [hc, headOk]
    · simp only [Bool.not_eq_true] at hr
      simp only [hr, Bool.false_eq_true, if_false]
      simpa [headOk] using h

/-- `stripSp` leaves a non-space head. -/
theorem headOk_stripSp (l : List Char) : headOk (stripSp l) = true :=
  headOk_dropEndSp _ (headOk_dropWhileSp l)

/-- `stripSp` leaves a non-space last character. -/
theorem lastOk_stripSp (l : List Char) : lastOk (stripSp l) = true :=
  lastOk_dropEndSp _

/-- `stripSp` preserves `noDbl`. -/
theorem noDbl_stripSp (l : List Char) (h : noDbl l = true) :
    noDbl (stripSp l) = true :=
  noDbl_dropEndSp _ (noDbl_dropWhileSp l h)

/-- Characters survive `stripSp` only from the input. -/
theorem mem_stripSp (l : List Char) (c : Char) (h : c ∈ stripSp l) :
    c ∈ l :=
  (l.dropWhile_sublist isSpaceChar).subset (mem_dropEndSp _ c h)

/-- Removing trailing whitespace is the identity when the last character
is not whitespace. -/
theorem dropEndSp_eq_self : ∀ l : List Char, lastOk l = true →
    dropEndSp l = l := by
  intro l
  induction l with
  | nil => intro _; rfl
  | cons c t ih =>
    intro h
    cases t with
    | nil =>
      rw [dropEndSp]
      simp only [dropEndSp, List.isEmpty_nil, if_true]
      rw [lastOk] at h
      simp only [Bool.not_eq_eq_eq_not, Bool.not_true] at h
      simp [h]
    | cons d t2 =>
      rw [lastOk_cons_of_ne c _ (by simp)] at h
      have ht := ih h
      rw [dropEndSp, ht]
      simp

/-- `stripSp` is the identity when neither end is whitespace. -/
theorem stripSp_eq_self (l : List Char) (h1 : headOk l = true)
    (h2 : lastOk l = true) : stripSp l = l := by
  have hd : l.dropWhile isSpaceChar = l := by
    cases l with
    | nil => rfl
    | cons c t =>
      rw [headOk] at h1
      simp only [Bool.not_eq_eq_eq_not, Bool.not_true] at h1
      simp [List.dropWhile_cons, h1]
  rw [stripSp, hd]
  exact dropEndSp_eq_self l h2

/-- Tag removal is the identity on text without `<`. -/
theorem removeTags_eq_self : ∀ l : List Char, (∀ c ∈ l, c ≠ '<') →
    removeTags l = l := by
  intro l
  induction l with
  | nil => intro _; rw [removeTags]
  | cons c rest ih =>
    intro h
    have hc : c ≠ '<' := h c (List.mem_cons_self _ _)
    rw [removeTags]
    simp only [hc, Bool.false_eq_true, if_false, if_neg hc]
    rw [ih fun d hd => h d (List.mem_cons_of_mem _ hd)]

/-- The URL pattern needs a `:`: on text without `:` it never matches. -/
theorem matchUrl_none (l : List Char) (h : (':' : Char) ∉ l) :
    matchUrl l = none := by
  unfold matchUrl
  cases h1 : dropLit ("http".data) l with
  | none => rfl
  | some r1 =>
    have hs : dropLit ("s://".data) r1 = none := by
      cases h2 : dropLit ("s://".data) r1 with
      | none => rfl
      | some r =>
        exfalso
        apply h
        apply dropLit_mem _ _ _ h1 ':' (Or.inr ?_)
        exact dropLit_mem _ _ _ h2 ':' (Or.inl (by decide))
    have hp : dropLit ("://".data) r1 = none := by
      cases h2 : dropLit ("://".data) r1 with
      | none => rfl
      | some r =>
        exfalso
        apply h
        apply dropLit_mem _ _ _ h1 ':' (Or.inr ?_)
        exact dropLit_mem _ _ _ h2 ':' (Or.inl (by decide))
    simp [hs, hp]

/-- URL removal is the identity on text without `:`. -/
theorem removeUrls_eq_self : ∀ l : List Char, (∀ c ∈ l, c ≠ ':') →
    removeUrls l = l := by
  intro l
  induction l with
  | nil => intro _; rw [removeUrls]
  | cons c rest ih =>
    intro h
    have hm : matchUrl (c :: rest) = none := by
      apply matchUrl_none
      intro hmem
      exact h ':' hmem rfl
    rw [removeUrls]
    split
    · next r heq =>
      rw [hm] at heq
      exact absurd heq (by simp)
    · rw [ih fun d hd => h d (List.mem_cons_of_mem _ hd)]

/-- Characters of the kept class are neither `<` nor `:`. -/
theorem isKeptChar_ne (c : Char) (h : isKeptChar c = true) :
    c ≠ '<' ∧ c ≠ ':' := by
  constructor
  · intro he; subst he; exact absurd h (by decide)
  · intro he; subst he; exact absurd h (by decide)

/-- Every character of a normalized list is in the kept class. -/
theorem mem_cleanList_kept (l : List Char) :
    ∀ c ∈ cleanList l, isKeptChar c = true := by
  intro c hc
  unfold cleanList at hc
  have h1 := mem_stripSp _ c hc
  rcases mem_collapseWs _ c h1 with h2 | h2
  · exact (List.mem_filter.mp h2).2
  · subst h2; decide

/-- The normalizer's output is in normal form: whitespace is single plain
spaces and neither end is whitespace. -/
theorem cleanList_normal (l : List Char) :
    allSpOk (cleanList l) = true ∧ noDbl (cleanList l) = true ∧
    headOk (cleanList l) = true ∧ lastOk (cleanList l) = true := by
  unfold cleanList
  refine ⟨?_, ?_, headOk_stripSp _, lastOk_stripSp _⟩
  · exact allSpOk_of_sub _ _ (allSpOk_collapseWs _)
      (fun c hc => mem_stripSp _ c hc)
  · exact noDbl_stripSp _ (noDbl_collapseWs _)

/-- The normalizer is idempotent at the character-list level. -/
theorem cleanList_idem (l : List Char) :
    cleanList (cleanList l) = cleanList l := by
  have hk := mem_cleanList_kept l
  obtain ⟨hsp, hdbl, hhd, hlast⟩ := cleanList_normal l
  have h1 : removeTags (cleanList l) = cleanList l :=
    removeTags_eq_self _ fun c hc => (isKeptChar_ne c (hk c hc)).1
  have h2 : removeUrls (cleanList l) = cleanList l :=
    removeUrls_eq_self _ fun c hc => (isKeptChar_ne c (hk c hc)).2
  have h3 : (cleanList l).filter isKeptChar = cleanList l :=
    List.filter_eq_self.mpr fun c hc => hk c hc
  conv_lhs => rw [cleanList]
  rw [h1, h2, h3, collapseWs_eq_self _ hsp hdbl, stripSp_eq_self _ hhd hlast]

/-- C6: the text normalizer is a total function; empty or `None` input
yields the empty string; and it is idempotent:
`clean_text (clean_text t) = clean_text t` for every string `t`. -/
theorem C6_normalizer_total_idempotent :
    clean_text "" = "" ∧ clean_textOpt none = "" ∧
    (∀ t : String, clean_text (clean_text t) = clean_text t) := by
  refine ⟨rfl, rfl, ?_⟩
  intro t
  by_cases h : t = ""
  · subst h; rfl
  · have ht : clean_text t = String.mk (cleanList t.data) := by
      unfold clean_text
      rw [if_neg h]
    rw [ht]
    by_cases h2 : cleanList t.data = []
    · rw [h2]
      rfl
    · have hne : String.mk (cleanList t.data) ≠ "" := by
        intro he
        apply h2
        have hd : (String.mk (cleanList t.data)).data = ("" : String).data :=
          by rw [he]
        simpa using hd
      unfold clean_text
      rw [if_neg hne]
      have hdata : (String.mk (cleanList t.data)).data = cleanList t.data :=
        rfl
      rw [hdata, cleanList_idem]
